import Mathlib

/-!
Verification of the comment-processing pipeline of the Bot-tube repository
(`comment-analyzer/app`): text normalization (`preprocessing.clean_text`),
selective autocorrection (`autocorrect_text`), rule-based spam/troll
classification (`detect_spam`, `detect_troll`, `classify_comment`), the
preprocessing pipeline (`preprocess_comments`), and the VADER aggregation
layer (`vader_analyzer.analyze_comments_vader`,
`calculate_sentiment_distribution`, `get_extreme_comments`).

The Python source is shallowly embedded: strings are `String`/`List Char`
(Python `len` counts codepoints, as does `List.length` on `.data`),
machine floats used for thresholds and percentages are modelled as exact
rationals, and calls that can raise a Python exception are modelled with
`Option`/`Except`.  The external capabilities that the code delegates to
(the `demojize`/`emoji_count` functions of the `emoji` library, the `autocorrect`
`Speller`, the VADER `polarity_scores` engine) are parameters of the
embedding, since the repository owns only the policy around them.
Character classes (`\w`, `isupper`, `lower`, `[a-zA-Z]`, `\d`) are
modelled over ASCII; the pipeline is explicitly ASCII-biased (its
normalizer deletes all non-ASCII characters).
-/

/-- Python `\s` whitespace class for ASCII text: space, tab, newline,
carriage return, vertical tab, form feed. -/
def isSpaceChar (c : Char) : Bool :=
  c = ' ' || c = '\t' || c = '\n' || c = '\r' || c = '\x0b' || c = '\x0c'

/-- Python `\w` word-character class (ASCII fragment): alphanumeric or
underscore. -/
def isWordChar (c : Char) : Bool :=
  c.isAlphanum || c = '_'

/-- Python regex class `[a-zA-Z]` (used by `is_valid_comment`). -/
def isAsciiAlpha (c : Char) : Bool :=
  c.isAlpha

/-- Lowercase a character sequence (ASCII fragment of Python `str.lower`). -/
def lowerL (l : List Char) : List Char :=
  l.map Char.toLower

/-- `stripLit pat l` returns the remainder of `l` after the literal
prefix `pat`, or `none` if `pat` is not a prefix of `l`. -/
def stripLit : List Char → List Char → Option (List Char)
  | [], l => some l
  | _ :: _, [] => none
  | p :: ps, c :: cs => if p = c then stripLit ps cs else none

/-- Python substring test `needle in hay`. -/
def containsSub (needle : List Char) : List Char → Bool
  | [] => needle.isEmpty
  | c :: cs => (stripLit needle (c :: cs)).isSome || containsSub needle cs

/-- Python `str.strip()` (both ends, whitespace). -/
def trimChars (l : List Char) : List Char :=
  ((l.dropWhile isSpaceChar).reverse.dropWhile isSpaceChar).reverse

/-- Helper of `pySplit`: `cur` is the word currently being accumulated. -/
def pySplitAux (cur : List Char) : List Char → List (List Char)
  | [] => if cur.isEmpty then [] else [cur]
  | c :: cs =>
    if isSpaceChar c then
      if cur.isEmpty then pySplitAux [] cs else cur :: pySplitAux [] cs
    else pySplitAux (cur ++ [c]) cs

/-- Python `str.split()` with no argument: split on whitespace runs,
discarding empty tokens. -/
def pySplit (l : List Char) : List (List Char) :=
  pySplitAux [] l

/-- Replacement emitted for one maximal run of a character class: runs of
length `≥ minLen` are replaced by `repl`, shorter runs are kept. -/
def emitClass (minLen : Nat) (repl run : List Char) : List Char :=
  if minLen ≤ run.length then repl else run

/-- Scanner for `re.sub` on patterns of the form `[class]{minLen,}`:
`run` accumulates the current maximal run of class characters. -/
def classRunsAux (p : Char → Bool) (minLen : Nat) (repl : List Char) :
    List Char → List Char → List Char
  | run, [] => emitClass minLen repl run
  | run, c :: cs =>
    if p c then classRunsAux p minLen repl (run ++ [c]) cs
    else emitClass minLen repl run ++ c :: classRunsAux p minLen repl [] cs

/-- `re.sub` of `[class]{minLen,}` by the fixed replacement `repl`. -/
def classRuns (p : Char → Bool) (minLen : Nat) (repl : List Char)
    (l : List Char) : List Char :=
  classRunsAux p minLen repl [] l

/-- Replacement for one maximal run of `n` copies of `c` under the
pattern `(.)\1{3,}` → `\1\1` (`.` does not match a newline). -/
def emitEq (c : Char) (n : Nat) : List Char :=
  if c ≠ '\n' ∧ 4 ≤ n then [c, c] else List.replicate n c

/-- Scanner for `re.sub` of pattern `(.)\1{3,}` by `\1\1`: `c` is the current
run character, `n` its multiplicity so far. -/
def collapseEqAux (c : Char) (n : Nat) : List Char → List Char
  | [] => emitEq c n
  | d :: ds =>
    if d = c then collapseEqAux c (n + 1) ds
    else emitEq c n ++ collapseEqAux d 1 ds

/-- `re.sub` of pattern `(.)\1{3,}` by `\1\1`: collapse runs of 4 or more equal
(non-newline) characters to exactly two. -/
def collapseEq : List Char → List Char
  | [] => []
  | c :: cs => collapseEqAux c 1 cs

/-- Fueled `re.sub` scanner: `m l` returns `some (replacement, rest)`
when the pattern matches at the head of `l` (consuming at least one
character), else `none`; the scanner tries every position left to
right, exactly the leftmost-match semantics of `re.sub`.  The fuel is
instantiated with the length of the list by `subScan`. -/
def subScanF (m : List Char → Option (List Char × List Char)) :
    Nat → List Char → List Char
  | 0, l => l
  | _ + 1, [] => []
  | fuel + 1, c :: cs =>
    match m (c :: cs) with
    | some (rep, rest) => rep ++ subScanF m fuel rest
    | none => c :: subScanF m fuel cs

/-- `re.sub` with match function `m` and empty-or-fixed replacement. -/
def subScan (m : List Char → Option (List Char × List Char))
    (l : List Char) : List Char :=
  subScanF m l.length l

/-- Match helper for `\S+` tails: the greedy nonempty non-whitespace
token after a URL prefix.  Returns the rest after the token. -/
def urlTail (r : List Char) : Option (List Char × List Char) :=
  if (r.takeWhile (fun c => !isSpaceChar c)).isEmpty then none
  else some ([], r.dropWhile (fun c => !isSpaceChar c))

/-- Match at position for the URL deletion `http[s]?://\S+`.  The
greedy optional `[s]?` never needs backtracking: if `https://` is a
prefix the `http` + `://` reading would require `s://` after `http`. -/
def matchUrl (l : List Char) : Option (List Char × List Char) :=
  match stripLit ("https://").data l with
  | some r => urlTail r
  | none =>
    match stripLit ("http://").data l with
    | some r => urlTail r
    | none => none

/-- Match at position for the URL deletion `www\.\S+`. -/
def matchWww (l : List Char) : Option (List Char × List Char) :=
  match stripLit ("www.").data l with
  | some r => urlTail r
  | none => none

/-- Tail of a timestamp after the hour digits: `:\d{2}` then greedily an
optional `:\d{2}` (pattern `\d{1,2}:\d{2}(:\d{2})?`). -/
def timeColon : List Char → Option (List Char × List Char)
  | ':' :: a :: b :: r =>
    if a.isDigit && b.isDigit then
      some ([], match r with
        | ':' :: x :: y :: r2 => if x.isDigit && y.isDigit then r2 else r
        | _ => r)
    else none
  | _ => none

/-- Match at position for the timestamp deletion `\d{1,2}:\d{2}(:\d{2})?`:
the greedy `\d{1,2}` tries a two-digit hour first, then backtracks to
one digit. -/
def matchTime (l : List Char) : Option (List Char × List Char) :=
  match l with
  | d1 :: rest =>
    if d1.isDigit then
      match rest with
      | d2 :: r2 =>
        if d2.isDigit then
          match timeColon r2 with
          | some x => some x
          | none => timeColon rest
        else timeColon rest
      | [] => none
    else none
  | [] => none

/-- Match at position for the mention deletion `@\w+`. -/
def matchMention (l : List Char) : Option (List Char × List Char) :=
  match l with
  | '@' :: rest =>
    if (rest.takeWhile isWordChar).isEmpty then none
    else some ([], rest.dropWhile isWordChar)
  | _ => none

/-- Match at position for the hashtag rewrite of `#(\w+)` by `\1`: the hash is
dropped, the word is kept as the replacement. -/
def matchHashtag (l : List Char) : Option (List Char × List Char) :=
  match l with
  | '#' :: rest =>
    if (rest.takeWhile isWordChar).isEmpty then none
    else some (rest.takeWhile isWordChar, rest.dropWhile isWordChar)
  | _ => none

/-- The ordered regex stages of `clean_text` after emoji demojization:
URLs, `www` URLs, timestamps, mentions, hashtags, repeated characters,
excessive `!`/`?`/`.` punctuation, non-ASCII characters, whitespace
normalization, final `strip()`. -/
def cleanPipeline (l : List Char) : List Char :=
  trimChars <|
    classRuns isSpaceChar 1 [' '] <|
      classRuns (fun c => decide (127 < c.toNat)) 1 [' '] <|
        classRuns (fun c => c = '.') 3 ['.', '.', '.'] <|
          classRuns (fun c => c = '?') 2 ['?'] <|
            classRuns (fun c => c = '!') 2 ['!'] <|
              collapseEq <|
                subScan matchHashtag <|
                  subScan matchMention <|
                    subScan matchTime <|
                      subScan matchWww <|
                        subScan matchUrl l

/-- `preprocessing.clean_text`, parameterized by the external
`emoji.demojize` capability (`dem`); `demojize` only rewrites emoji,
which are non-ASCII, so it is the identity on ASCII strings. -/
def clean_text (dem : String → String) (s : String) : String :=
  if s = "" then "" else String.mk (cleanPipeline (dem s).data)

/-! ### Configuration (`app/config.py`, `Settings`) -/

/-- `Settings.MIN_COMMENT_LENGTH`. -/
def MIN_COMMENT_LENGTH : Nat := 3

/-- `Settings.MAX_COMMENT_LENGTH`. -/
def MAX_COMMENT_LENGTH : Nat := 500

/-- `Settings.VADER_COMPOUND_THRESHOLD_POSITIVE` (the float `0.05`). -/
def VADER_COMPOUND_THRESHOLD_POSITIVE : ℚ := 1/20

/-- `Settings.VADER_COMPOUND_THRESHOLD_NEGATIVE` (the float `-0.3`). -/
def VADER_COMPOUND_THRESHOLD_NEGATIVE : ℚ := -3/10

/-- `Settings.SPAM_KEYWORDS`. -/
def SPAM_KEYWORDS : List String :=
  ["subscribe to my channel", "check out my", "visit my profile",
   "free v-bucks", "free robux", "click here", "link in bio",
   "giveaway", "dm me", "follow me"]

/-- `Settings.TROLL_INDICATORS`. -/
def TROLL_INDICATORS : List String :=
  ["first", "ratio", "nobody:", "no one:", "L + ratio"]

/-! ### Content classifier (`app/preprocessing.py`) -/

/-- `models.CommentType`. -/
inductive CommentType
  | normal
  | spam
  | troll
  deriving DecidableEq, Repr

/-- Promotional pattern `sub(scribe)?\s*(to)?\s*(my|me)` matched at the
head of a list.  The greedy optional groups never need backtracking
here: after dropping an optional literal the continuation must start
with a space, `t`, or `m`, never with the first character of the dropped
literal. -/
def matchSubMy (l : List Char) : Bool :=
  match stripLit ("sub").data l with
  | none => false
  | some r1 =>
    let r2 := (stripLit ("scribe").data r1).getD r1
    let r3 := r2.dropWhile isSpaceChar
    let r4 := (stripLit ("to").data r3).getD r3
    let r5 := r4.dropWhile isSpaceChar
    (stripLit ("my").data r5).isSome || (stripLit ("me").data r5).isSome

/-- Promotional pattern `check\s*(out)?\s*(my|me)` at the head. -/
def matchCheckMy (l : List Char) : Bool :=
  match stripLit ("check").data l with
  | none => false
  | some r1 =>
    let r2 := r1.dropWhile isSpaceChar
    let r3 := (stripLit ("out").data r2).getD r2
    let r4 := r3.dropWhile isSpaceChar
    (stripLit ("my").data r4).isSome || (stripLit ("me").data r4).isSome

/-- Promotional pattern `follow\s*(me|my)` at the head. -/
def matchFollow (l : List Char) : Bool :=
  match stripLit ("follow").data l with
  | none => false
  | some r1 =>
    let r2 := r1.dropWhile isSpaceChar
    (stripLit ("me").data r2).isSome || (stripLit ("my").data r2).isSome

/-- Promotional pattern `\d+\s*subscribers?` at the head (the optional
trailing `s` does not change whether a match exists). -/
def matchSubscribers (l : List Char) : Bool :=
  !(l.takeWhile Char.isDigit).isEmpty &&
    (stripLit ("subscriber").data
      ((l.dropWhile Char.isDigit).dropWhile isSpaceChar)).isSome

/-- Promotional pattern `gift\s*card` at the head. -/
def matchGiftCard (l : List Char) : Bool :=
  match stripLit ("gift").data l with
  | none => false
  | some r1 => (stripLit ("card").data (r1.dropWhile isSpaceChar)).isSome

/-- Promotional pattern `free\s*(money|cash|gift)` at the head. -/
def matchFree (l : List Char) : Bool :=
  match stripLit ("free").data l with
  | none => false
  | some r1 =>
    let r2 := r1.dropWhile isSpaceChar
    (stripLit ("money").data r2).isSome || (stripLit ("cash").data r2).isSome ||
      (stripLit ("gift").data r2).isSome

/-- `re.search`: try an anchored match at every position, left to
right. -/
def scanAny (m : List Char → Bool) : List Char → Bool
  | [] => m []
  | c :: cs => m (c :: cs) || scanAny m cs

/-- `re.search` of pattern `(.)\1{4,}`: five or more equal consecutive
non-newline characters somewhere. -/
def hasRun5 : List Char → Bool
  | [] => false
  | a :: rest =>
    (match rest with
     | b :: c :: d :: e :: _ =>
       decide (a ≠ '\n') && a = b && b = c && c = d && d = e
     | _ => false) || hasRun5 rest

/-- Number of uppercase characters of `text` (`sum(1 for c in text if
c.isupper())`, ASCII fragment). -/
def upperCount (l : List Char) : Nat :=
  (l.filter Char.isUpper).length

/-- The spam checks of `detect_spam` that follow the emoji-density
check; none of them can raise, so this tail is a plain `Bool`. -/
def detect_spam_rest (text tl : List Char) : Bool :=
  hasRun5 text ||
    scanAny matchSubMy tl || scanAny matchCheckMy tl ||
      scanAny matchFollow tl || scanAny matchSubscribers tl ||
        scanAny matchGiftCard tl || scanAny matchFree tl

/-- `preprocessing.detect_spam`, parameterized by the external
`emoji.emoji_count` capability.  The result is `none` when the Python
code raises `ZeroDivisionError`: the emoji-density check divides by
`len(text.split())` under the guard `len(text) > 0`, and a nonempty
all-whitespace text makes the divisor zero.  The `author` argument of
the source is unused by its body and omitted.  The caps ratio
`sum(isupper)/len > 0.7` is compared exactly as `10·upper > 7·len`. -/
def detect_spam (emojiCount : String → Nat) (text : String) : Option Bool :=
  let tl := lowerL text.data
  if SPAM_KEYWORDS.any (fun k => containsSub (lowerL k.data) tl) then some true
  else if text.length > 10 && decide (10 * upperCount text.data > 7 * text.length) then
    some true
  else
    let ec := emojiCount text
    if text.length > 0 then
      let wc := (pySplit text.data).length
      if wc = 0 then none
      else if decide (ec > 2 * wc) then some true
      else some (detect_spam_rest text.data tl)
    else some (detect_spam_rest text.data tl)

/-- The apostrophe character (codepoint 39), which occurs in the troll
regex alternative matching the i-am-first comment variants. -/
def apoChar : Char := Char.ofNat 39

/-- The anchored troll regex on the lowered trimmed text: one of the
alternatives `first`, `1st`, `im first` (with an optional apostrophe
after the `i`) followed only by exclamation marks. -/
def matchFirstBang (tl : List Char) : Bool :=
  [("first").data, ("1st").data,
   ['i', apoChar, 'm', ' ', 'f', 'i', 'r', 's', 't'],
   ['i', 'm', ' ', 'f', 'i', 'r', 's', 't']].any fun a =>
    match stripLit a tl with
    | some r => r.all (· = '!')
    | none => false

/-- Troll regex `^ratio!*$`. -/
def matchRatioBang (tl : List Char) : Bool :=
  match stripLit ("ratio").data tl with
  | some r => r.all (· = '!')
  | none => false

/-- Troll regex `^(nobody|no\s*one|literally\s*nobody):` — each
alternative is tried in full, followed by the literal colon. -/
def matchNobody (tl : List Char) : Bool :=
  (match stripLit ("nobody:").data tl with
   | some _ => true
   | none => false) ||
  (match stripLit ("no").data tl with
   | some r =>
     (stripLit ("one:").data (r.dropWhile isSpaceChar)).isSome
   | none => false) ||
  (match stripLit ("literally").data tl with
   | some r =>
     (stripLit ("nobody:").data (r.dropWhile isSpaceChar)).isSome
   | none => false)

/-- The very-short provocative comment list of `detect_troll`. -/
def SHORT_TROLL_WORDS : List String :=
  ["mid", "bad", "trash", "fake", "cap", "l", "w"]

/-- `preprocessing.detect_troll`. -/
def detect_troll (text : String) : Bool :=
  let tl := trimChars (lowerL text.data)
  TROLL_INDICATORS.any (fun ind =>
    tl = lowerL ind.data || (lowerL ind.data).isPrefixOf tl) ||
  matchFirstBang tl ||
  matchRatioBang tl || containsSub ("L + ratio").data tl ||
  matchNobody tl ||
  (decide (tl.length ≤ 5) && SHORT_TROLL_WORDS.any (fun w => tl = w.data))

/-- `preprocessing.classify_comment`: spam first, then troll, else
normal; `none` when `detect_spam` raises. -/
def classify_comment (emojiCount : String → Nat) (text _author : String) :
    Option CommentType :=
  match detect_spam emojiCount text with
  | none => none
  | some true => some CommentType.spam
  | some false =>
    if detect_troll text then some CommentType.troll else some CommentType.normal

/-- `preprocessing.is_valid_comment`: nonempty, stripped length at least
`MIN_COMMENT_LENGTH`, and containing an ASCII letter. -/
def is_valid_comment (text : String) : Bool :=
  decide (text ≠ "") &&
    decide (MIN_COMMENT_LENGTH ≤ (trimChars text.data).length) &&
      text.data.any isAsciiAlpha

/-! ### Selective corrector and pipeline (`app/preprocessing.py`) -/

/-- The `preserve_words` internet-slang set of `autocorrect_text`. -/
def PRESERVE_WORDS : List String :=
  ["lol", "lmao", "omg", "btw", "idk", "imo", "imho", "tbh",
   "ngl", "fr", "gg", "ez", "pog", "poggers", "bruh", "bro",
   "dude", "lit", "goat", "goated", "sus", "cap", "nocap",
   "vibes", "vibe", "fire", "based", "cringe", "yeet", "fam"]

/-- Python `word.strip` on the punctuation set `.,!?;:` — drop those
characters from both
ends. -/
def trimPunct (l : List Char) : List Char :=
  let punct : Char → Bool := fun c =>
    c = '.' || c = ',' || c = '!' || c = '?' || c = ';' || c = ':'
  ((l.dropWhile punct).reverse.dropWhile punct).reverse

/-- `preprocessing.autocorrect_text`, parameterized by the external
`Speller` capability.  Inputs shorter than 3 characters are returned
unchanged; tokens that are preserved slang, of length at most 2, or
containing a digit bypass the speller; the result is rejoined with
single spaces.  A speller exception makes the Python code return the
input unchanged; on the inputs the pipeline feeds it (already whitespace-normalized
by `clean_text`) that behavior coincides with the speller that returns
every word unchanged, so totality of `speller` loses no behavior. -/
def autocorrect_text (speller : String → String) (t : String) : String :=
  if t.length < 3 then t
  else
    String.mk <| List.intercalate [' '] <|
      (pySplit t.data).map fun w =>
        let wl := trimPunct (lowerL w)
        if PRESERVE_WORDS.any (fun p => wl = p.data) || w.length ≤ 2 ||
            w.any Char.isDigit then w
        else (speller (String.mk w)).data

/-- The external capabilities consumed by the preprocessing pipeline:
`emoji.demojize`, `emoji.emoji_count`, and the `autocorrect` speller. -/
structure ExtCaps where
  demojize : String → String
  emojiCount : String → Nat
  speller : String → String

/-- The identity instantiation of the external capabilities: no emoji
in the text (so `demojize` is the identity and the emoji count is 0)
and a speller that changes nothing.  Faithful for ASCII inputs. -/
def extId : ExtCaps := ⟨id, fun _ => 0, id⟩

/-- A raw comment as consumed by `preprocess_comments`: only the `text`
and `author` fields are read (via `comment.get`). -/
structure RawComment where
  text : String
  author : String
  deriving DecidableEq, Repr

/-- The fields `preprocess_comments` adds to a surviving comment. -/
structure ProcessedComment where
  text_original : String
  text_clean : String
  comment_type : CommentType
  is_filtered : Bool
  deriving DecidableEq, Repr

/-- One iteration of the `preprocess_comments` loop: `some none` means
the comment was silently skipped by a validity gate, `some (some r)`
that it survived, and `none` that the iteration raised (the
`ZeroDivisionError` of `detect_spam`). -/
def processOne (ext : ExtCaps) (c : RawComment) : Option (Option ProcessedComment) :=
  if !is_valid_comment c.text then some none
  else
    let clean := clean_text ext.demojize c.text
    if !is_valid_comment clean then some none
    else
      let corrected0 := autocorrect_text ext.speller clean
      let corrected :=
        if corrected0.length > MAX_COMMENT_LENGTH then
          String.mk (corrected0.data.take MAX_COMMENT_LENGTH ++ ("...").data)
        else corrected0
      match classify_comment ext.emojiCount corrected c.author with
      | none => none
      | some ct =>
        some (some ⟨c.text, corrected, ct, decide (ct ≠ CommentType.normal)⟩)

/-- `preprocessing.preprocess_comments`: the whole batch, `none` when an
iteration raises (the exception propagates out of the loop). -/
def preprocess_comments (ext : ExtCaps) : List RawComment → Option (List ProcessedComment)
  | [] => some []
  | c :: cs =>
    match processOne ext c with
    | none => none
    | some none => preprocess_comments ext cs
    | some (some r) => (preprocess_comments ext cs).map (r :: ·)

/-! ### Sentiment scorer and aggregation (`app/vader_analyzer.py`) -/

/-- `models.SentimentType`. -/
inductive SentimentType
  | positive
  | negative
  | neutral
  deriving DecidableEq, Repr

/-- The threshold classification shared by `analyze_sentiment` and
`analyze_comments_vader`: `compound ≥ positive threshold ⇒ positive`,
else `compound ≤ negative threshold ⇒ negative`, else neutral. -/
def classifyCompound (posTh negTh compound : ℚ) : SentimentType :=
  if compound ≥ posTh then SentimentType.positive
  else if compound ≤ negTh then SentimentType.negative
  else SentimentType.neutral

/-- `vader_analyzer.analyze_sentiment`, parameterized by the external
polarity engine; an engine exception propagates (`Except.error`). -/
def analyze_sentiment (score : String → Except String ℚ) (text : String) :
    Except String (SentimentType × ℚ) :=
  (score text).map fun compound =>
    (classifyCompound VADER_COMPOUND_THRESHOLD_POSITIVE
      VADER_COMPOUND_THRESHOLD_NEGATIVE compound, compound)

/-- A comment as read by `analyze_comments_vader`: `text_clean` models
the selected text — the field `text_clean` with the raw text, then the
empty string, as fallbacks —
of a preprocessed comment, `is_filtered` its filter flag. -/
structure VComment where
  text_clean : String
  is_filtered : Bool
  deriving DecidableEq, Repr

/-- A comment after sentiment analysis: the fields that
`calculate_sentiment_distribution` and `get_extreme_comments` read. -/
structure AnalyzedComment where
  text_clean : String
  is_filtered : Bool
  sentiment : SentimentType
  sentiment_score : ℚ
  deriving DecidableEq, Repr

/-- The empty-text fallback of `analyze_comments_vader`: neutral with
score 0, assigned without invoking the engine. -/
def neutralize (c : VComment) : AnalyzedComment :=
  ⟨c.text_clean, c.is_filtered, SentimentType.neutral, 0⟩

/-- `vader_analyzer.analyze_comments_vader`, parameterized by the
external polarity engine.  There is no exception handler in the source:
an engine error aborts the batch (`Except.error`). -/
def analyze_comments_vader (score : String → Except String ℚ) :
    List VComment → Except String (List AnalyzedComment)
  | [] => Except.ok []
  | c :: cs =>
    if c.text_clean = "" then
      (analyze_comments_vader score cs).map (neutralize c :: ·)
    else
      match score c.text_clean with
      | Except.error e => Except.error e
      | Except.ok compound =>
        (analyze_comments_vader score cs).map
          (⟨c.text_clean, c.is_filtered,
            classifyCompound VADER_COMPOUND_THRESHOLD_POSITIVE
              VADER_COMPOUND_THRESHOLD_NEGATIVE compound, compound⟩ :: ·)

/-- `models.SentimentDistribution` with exact rational percentages. -/
structure SentimentDistribution where
  positive : Nat
  negative : Nat
  neutral : Nat
  positive_percentage : ℚ
  negative_percentage : ℚ
  neutral_percentage : ℚ
  average_sentiment : ℚ
  deriving DecidableEq, Repr

/-- Python 3 `round()` to an integer: round half to even. -/
def roundHalfEven (x : ℚ) : ℤ :=
  if Int.fract x < 1/2 then ⌊x⌋
  else if 1/2 < Int.fract x then ⌊x⌋ + 1
  else if Even ⌊x⌋ then ⌊x⌋ else ⌊x⌋ + 1

/-- Python `round(x, 1)` over exact rationals. -/
def round1 (x : ℚ) : ℚ :=
  (roundHalfEven (10 * x) : ℚ) / 10

/-- Python `round(x, 3)` over exact rationals. -/
def round3 (x : ℚ) : ℚ :=
  (roundHalfEven (1000 * x) : ℚ) / 1000

/-- `vader_analyzer.calculate_sentiment_distribution`: statistics over
the non-filtered comments, all zero when there are none. -/
def calculate_sentiment_distribution (comments : List AnalyzedComment) :
    SentimentDistribution :=
  let valid := comments.filter fun c => !c.is_filtered
  if valid.isEmpty then ⟨0, 0, 0, 0, 0, 0, 0⟩
  else
    let p := valid.countP fun c => decide (c.sentiment = SentimentType.positive)
    let n := valid.countP fun c => decide (c.sentiment = SentimentType.negative)
    let u := valid.countP fun c => decide (c.sentiment = SentimentType.neutral)
    let T : ℚ := valid.length
    ⟨p, n, u,
     round1 ((p / T) * 100), round1 ((n / T) * 100), round1 ((u / T) * 100),
     round3 ((valid.map (·.sentiment_score)).sum / T)⟩

/-- Stable insertion for an ascending sort by the rank `r` (the CPython
`sorted` builtin is stable; `reverse=True` on a numeric key is its stable
descending variant, realized below by negating the rank). -/
def insertRank {α : Type} (r : α → ℚ) (x : α) : List α → List α
  | [] => [x]
  | y :: ys => if r x ≤ r y then x :: y :: ys else y :: insertRank r x ys

/-- Stable ascending sort by the rank `r`. -/
def sortRank {α : Type} (r : α → ℚ) : List α → List α
  | [] => []
  | x :: xs => insertRank r x (sortRank r xs)

/-- `vader_analyzer.get_extreme_comments`: restrict to the non-filtered
comments of the requested sentiment, sort — descending score for
positive, ascending for negative, ascending absolute score for neutral,
with ties kept in input order — and truncate to `n`. -/
def get_extreme_comments (comments : List AnalyzedComment)
    (sentiment : SentimentType) (n : Nat) : List AnalyzedComment :=
  let filtered := comments.filter fun c =>
    decide (c.sentiment = sentiment) && !c.is_filtered
  let sorted :=
    match sentiment with
    | SentimentType.positive =>
      sortRank (fun c : AnalyzedComment => -c.sentiment_score) filtered
    | SentimentType.negative =>
      sortRank (fun c : AnalyzedComment => c.sentiment_score) filtered
    | SentimentType.neutral =>
      sortRank (fun c : AnalyzedComment => |c.sentiment_score|) filtered
  sorted.take n

/-! ### Generic lemmas about the `re.sub` scanners -/

theorem length_dropWhileLe (p : Char → Bool) (l : List Char) :
    (l.dropWhile p).length ≤ l.length :=
  (List.dropWhile_sublist p).length_le

theorem length_trimChars (l : List Char) : (trimChars l).length ≤ l.length := by
  unfold trimChars
  calc ((l.dropWhile isSpaceChar).reverse.dropWhile isSpaceChar).reverse.length
      = ((l.dropWhile isSpaceChar).reverse.dropWhile isSpaceChar).length := by
        rw [List.length_reverse]
    _ ≤ (l.dropWhile isSpaceChar).reverse.length := length_dropWhileLe _ _
    _ = (l.dropWhile isSpaceChar).length := by rw [List.length_reverse]
    _ ≤ l.length := length_dropWhileLe _ _

theorem mem_trimChars {a : Char} {l : List Char} (h : a ∈ trimChars l) : a ∈ l := by
  unfold trimChars at h
  rw [List.mem_reverse] at h
  have h2 := (List.dropWhile_sublist isSpaceChar).mem h
  rw [List.mem_reverse] at h2
  exact (List.dropWhile_sublist isSpaceChar).mem h2

theorem emitClass_length {minLen : Nat} {repl : List Char}
    (h : repl.length ≤ minLen) (run : List Char) :
    (emitClass minLen repl run).length ≤ run.length := by
  unfold emitClass
  split
  · omega
  · exact le_refl _

theorem classRunsAux_length {p : Char → Bool} {minLen : Nat} {repl : List Char}
    (h : repl.length ≤ minLen) :
    ∀ (l run : List Char),
      (classRunsAux p minLen repl run l).length ≤ run.length + l.length := by
  intro l
  induction l with
  | nil =>
    intro run
    simpa using emitClass_length h run
  | cons c cs ih =>
    intro run
    unfold classRunsAux
    split
    · have := ih (run ++ [c])
      simp at this ⊢
      omega
    · have h1 := emitClass_length h run
      have h2 := ih []
      simp at h2 ⊢
      omega

theorem classRuns_length {p : Char → Bool} {minLen : Nat} {repl : List Char}
    (h : repl.length ≤ minLen) (l : List Char) :
    (classRuns p minLen repl l).length ≤ l.length := by
  simpa using classRunsAux_length h l []

theorem emitEq_length (c : Char) (n : Nat) : (emitEq c n).length ≤ n := by
  unfold emitEq
  split
  · simp only [List.length_cons, List.length_nil]
    omega
  · simp

theorem collapseEqAux_length :
    ∀ (l : List Char) (c : Char) (n : Nat),
      (collapseEqAux c n l).length ≤ n + l.length := by
  intro l
  induction l with
  | nil =>
    intro c n
    simpa using emitEq_length c n
  | cons d ds ih =>
    intro c n
    unfold collapseEqAux
    split
    · have := ih c (n + 1)
      simp only [List.length_cons] at this ⊢
      omega
    · have h1 := emitEq_length c n
      have h2 := ih d 1
      simp only [List.length_append, List.length_cons] at h2 ⊢
      omega

theorem collapseEq_length (l : List Char) : (collapseEq l).length ≤ l.length := by
  cases l with
  | nil => simp [collapseEq]
  | cons c cs =>
    have := collapseEqAux_length cs c 1
    simpa [collapseEq, Nat.add_comm] using this

theorem subScanF_length {m : List Char → Option (List Char × List Char)}
    (hm : ∀ l rep rest, m l = some (rep, rest) → rep.length + rest.length ≤ l.length) :
    ∀ (fuel : Nat) (l : List Char), (subScanF m fuel l).length ≤ l.length := by
  intro fuel
  induction fuel with
  | zero => intro l; simp [subScanF]
  | succ f ih =>
    intro l
    cases l with
    | nil => simp [subScanF]
    | cons c cs =>
      unfold subScanF
      cases hmm : m (c :: cs) with
      | some pr =>
        obtain ⟨rep, rest⟩ := pr
        have h1 := hm _ _ _ hmm
        have h2 := ih rest
        simp only [List.length_append, List.length_cons] at h1 ⊢
        omega
      | none =>
        have := ih cs
        simp only [List.length_cons]
        omega

theorem subScan_length {m : List Char → Option (List Char × List Char)}
    (hm : ∀ l rep rest, m l = some (rep, rest) → rep.length + rest.length ≤ l.length)
    (l : List Char) : (subScan m l).length ≤ l.length :=
  subScanF_length hm l.length l

theorem stripLit_length :
    ∀ (p l r : List Char), stripLit p l = some r → r.length + p.length = l.length := by
  intro p
  induction p with
  | nil =>
    intro l r h
    simp [stripLit] at h
    simp [h]
  | cons a as ih =>
    intro l r h
    cases l with
    | nil => simp [stripLit] at h
    | cons c cs =>
      unfold stripLit at h
      split at h
      · have := ih cs r h
        simp only [List.length_cons]
        omega
      · exact absurd h (by simp)

theorem urlTail_length {r rep rest : List Char} (h : urlTail r = some (rep, rest)) :
    rep.length + rest.length ≤ r.length := by
  unfold urlTail at h
  split at h
  · exact absurd h (by simp)
  · injection h with h1
    obtain ⟨h2, h3⟩ := Prod.mk.injEq .. ▸ h1
    subst h2; subst h3
    simpa using length_dropWhileLe _ r

theorem matchUrl_length :
    ∀ (l rep rest : List Char), matchUrl l = some (rep, rest) →
      rep.length + rest.length ≤ l.length := by
  intro l rep rest h
  unfold matchUrl at h
  split at h
  case _ r hs =>
    have h1 := stripLit_length _ _ _ hs
    have := urlTail_length h
    omega
  case _ =>
    split at h
    case _ r hs =>
      have h1 := stripLit_length _ _ _ hs
      have := urlTail_length h
      omega
    case _ => exact absurd h (by simp)

theorem matchWww_length :
    ∀ (l rep rest : List Char), matchWww l = some (rep, rest) →
      rep.length + rest.length ≤ l.length := by
  intro l rep rest h
  unfold matchWww at h
  split at h
  case _ r hs =>
    have h1 := stripLit_length _ _ _ hs
    have := urlTail_length h
    omega
  case _ => exact absurd h (by simp)

theorem timeColon_length :
    ∀ (r rep rest : List Char), timeColon r = some (rep, rest) →
      rep.length + rest.length ≤ r.length := by
  intro r rep rest h
  unfold timeColon at h
  split at h
  case _ a b r2 =>
    split at h
    · injection h with h1
      obtain ⟨h2, h3⟩ := Prod.mk.injEq .. ▸ h1
      subst h2; subst h3
      split
      · split
        · simp only [List.length_cons, List.length_nil]; omega
        · simp only [List.length_cons, List.length_nil]; omega
      · simp only [List.length_cons, List.length_nil]; omega
    · exact absurd h (by simp)
  case _ => exact absurd h (by simp)

theorem matchTime_length :
    ∀ (l rep rest : List Char), matchTime l = some (rep, rest) →
      rep.length + rest.length ≤ l.length := by
  intro l rep rest h
  unfold matchTime at h
  split at h
  case _ d1 r1 =>
    split at h
    · split at h
      case _ d2 r2 =>
        split at h
        · split at h
          case _ x hx =>
            have := timeColon_length _ _ _ hx
            injection h with h1
            subst h1
            simp only [List.length_cons] at this ⊢
            omega
          case _ =>
            have := timeColon_length _ _ _ h
            simp only [List.length_cons] at this ⊢
            omega
        · have := timeColon_length _ _ _ h
          simp only [List.length_cons] at this ⊢
          omega
      case _ => exact absurd h (by simp)
    · exact absurd h (by simp)
  case _ => exact absurd h (by simp)

theorem matchMention_length :
    ∀ (l rep rest : List Char), matchMention l = some (rep, rest) →
      rep.length + rest.length ≤ l.length := by
  intro l rep rest h
  unfold matchMention at h
  split at h
  case _ r =>
    split at h
    · exact absurd h (by simp)
    · injection h with h1
      obtain ⟨h2, h3⟩ := Prod.mk.injEq .. ▸ h1
      subst h2; subst h3
      have := length_dropWhileLe isWordChar r
      simp only [List.length_cons, List.length_nil]
      omega
  case _ => exact absurd h (by simp)

theorem matchHashtag_length :
    ∀ (l rep rest : List Char), matchHashtag l = some (rep, rest) →
      rep.length + rest.length ≤ l.length := by
  intro l rep rest h
  unfold matchHashtag at h
  split at h
  case _ r =>
    split at h
    · exact absurd h (by simp)
    · injection h with h1
      obtain ⟨h2, h3⟩ := Prod.mk.injEq .. ▸ h1
      subst h2; subst h3
      have : (r.takeWhile isWordChar).length + (r.dropWhile isWordChar).length = r.length := by
        have h4 : (r.takeWhile isWordChar ++ r.dropWhile isWordChar).length = r.length := by
          rw [List.takeWhile_append_dropWhile]
        rw [List.length_append] at h4
        exact h4
      simp only [List.length_cons]
      omega
  case _ => exact absurd h (by simp)

theorem cleanPipeline_length (l : List Char) : (cleanPipeline l).length ≤ l.length := by
  unfold cleanPipeline
  refine le_trans (length_trimChars _) ?_
  refine le_trans (classRuns_length (by simp) _) ?_
  refine le_trans (classRuns_length (by simp) _) ?_
  refine le_trans (classRuns_length (by simp) _) ?_
  refine le_trans (classRuns_length (by simp) _) ?_
  refine le_trans (classRuns_length (by simp) _) ?_
  refine le_trans (collapseEq_length _) ?_
  refine le_trans (subScan_length matchHashtag_length _) ?_
  refine le_trans (subScan_length matchMention_length _) ?_
  refine le_trans (subScan_length matchTime_length _) ?_
  refine le_trans (subScan_length matchWww_length _) ?_
  exact subScan_length matchUrl_length _

/-- Membership in the output of a `minLen = 1` class-run substitution:
every character comes from the replacement or is a kept input character
outside the class (runs of class characters are always replaced). -/
theorem classRunsAux_mem_one {p : Char → Bool} {repl : List Char} {a : Char} :
    ∀ (l run : List Char), a ∈ classRunsAux p 1 repl run l →
      a ∈ repl ∨ (a ∈ l ∧ p a = false) := by
  intro l
  induction l with
  | nil =>
    intro run h
    simp only [classRunsAux, emitClass] at h
    split at h
    · exact Or.inl h
    · simp_all
  | cons c cs ih =>
    intro run h
    unfold classRunsAux at h
    split at h
    · rcases ih (run ++ [c]) h with h1 | ⟨h2, h3⟩
      · exact Or.inl h1
      · exact Or.inr ⟨List.mem_cons_of_mem c h2, h3⟩
    · rw [List.mem_append] at h
      rcases h with h | h
      · unfold emitClass at h
        split at h
        · exact Or.inl h
        · simp_all
      · rcases List.mem_cons.mp h with h | h
        · subst h
          exact Or.inr ⟨List.mem_cons_self a cs, by simp_all⟩
        · rcases ih [] h with h1 | ⟨h2, h3⟩
          · exact Or.inl h1
          · exact Or.inr ⟨List.mem_cons_of_mem c h2, h3⟩

/-- Every character output by the normalizer is ASCII: the non-ASCII
stage replaces all non-ASCII runs by spaces, and the later stages only
keep input characters or insert spaces. -/
theorem cleanPipeline_ascii {a : Char} {l : List Char}
    (h : a ∈ cleanPipeline l) : a.toNat ≤ 127 := by
  unfold cleanPipeline at h
  have h1 := mem_trimChars h
  rcases classRunsAux_mem_one _ _ h1 with h2 | ⟨h2, h3⟩
  · simp at h2
    subst h2
    decide
  · rcases classRunsAux_mem_one _ _ h2 with h4 | ⟨h4, h5⟩
    · simp at h4
      subst h4
      decide
    · simpa using h5

theorem clean_text_data (dem : String → String) (s : String) (h : ¬ s = "") :
    (clean_text dem s).data = cleanPipeline (dem s).data := by
  rw [clean_text, if_neg h]

theorem clean_text_ascii (dem : String → String) (s : String) :
    ∀ a ∈ (clean_text dem s).data, a.toNat ≤ 127 := by
  intro a ha
  by_cases hs : s = ""
  · rw [clean_text, if_pos hs] at ha
    simp at ha
  · rw [clean_text_data dem s hs] at ha
    exact cleanPipeline_ascii ha

/-- C5, counterexample: the Normalizer is not idempotent.  On `"##abc"`
the hashtag stage only rewrites the second hash (`re.sub` scans left to
right and `#(\w+)` does not match at the first hash, whose successor is
not a word character), producing `"#abc"`; a second application then
strips the remaining hash, giving `"abc"`. -/
theorem clean_text_not_idempotent :
    clean_text id (clean_text id "##abc") ≠ clean_text id "##abc" ∧
      clean_text id "##abc" = "#abc" ∧
        clean_text id (clean_text id "##abc") = "abc" := by
  refine ⟨?_, by decide, by decide⟩
  decide

/-- C5 (amended): re-normalizing normalized text is not the identity in
general — a stripping stage can expose a new match for another stage —
but a second application of the Normalizer can only further shrink the
text, never grow it: the output of `clean_text` is ASCII, so the emoji
stage is the identity on it, and the replacement of every regex stage is at
most as long as what it consumes. -/
theorem clean_text_reapply_shrinks (dem : String → String)
    (hdem : ∀ s : String, (∀ a ∈ s.data, a.toNat ≤ 127) → dem s = s)
    (x : String) :
    (clean_text dem (clean_text dem x)).length ≤ (clean_text dem x).length := by
  by_cases hempty : clean_text dem x = ""
  · rw [hempty]
    simp [clean_text]
  · have hasc := clean_text_ascii dem x
    calc (clean_text dem (clean_text dem x)).length
        = (cleanPipeline (dem (clean_text dem x)).data).length := by
          show (clean_text dem (clean_text dem x)).data.length = _
          rw [clean_text_data dem _ hempty]
      _ ≤ (dem (clean_text dem x)).data.length := cleanPipeline_length _
      _ = (clean_text dem x).data.length := by rw [hdem _ hasc]
      _ = (clean_text dem x).length := rfl

/-- Witness for `clean_text_reapply_shrinks`: the library `demojize` is
the identity on ASCII strings, and so is `id`; instantiating at the
counterexample input. -/
theorem clean_text_reapply_shrinks_witness :
    (clean_text id (clean_text id "##abc")).length ≤ (clean_text id "##abc").length :=
  clean_text_reapply_shrinks id (fun _ _ => rfl) "##abc"

/-! ### The preprocessing pipeline: truncation bound and filter flag -/

theorem processOne_inv (ext : ExtCaps) (c : RawComment) (r : ProcessedComment)
    (h : processOne ext c = some (some r)) :
    r.text_clean.length ≤ MAX_COMMENT_LENGTH + 3 ∧
      r.is_filtered = decide (r.comment_type ≠ CommentType.normal) := by
  simp only [processOne] at h
  split at h
  · simp at h
  · split at h
    · simp at h
    · split at h
      · simp at h
      · simp only [Option.some.injEq] at h
        subst h
        refine ⟨?_, by simp⟩
        simp only []
        split
        · show (String.mk _).length ≤ _
          have : (String.mk (List.take MAX_COMMENT_LENGTH
              (autocorrect_text ext.speller (clean_text ext.demojize c.text)).data ++
                ("...").data)).length =
              (List.take MAX_COMMENT_LENGTH
                (autocorrect_text ext.speller (clean_text ext.demojize c.text)).data ++
                  ("...").data).length := rfl
          rw [this, List.length_append, List.length_take]
          simp only [List.length_cons, List.length_nil]
          omega
        · omega

theorem preprocess_mem (ext : ExtCaps) :
    ∀ (cs : List RawComment) (out : List ProcessedComment),
      preprocess_comments ext cs = some out →
        ∀ r ∈ out, ∃ c, processOne ext c = some (some r) := by
  intro cs
  induction cs with
  | nil =>
    intro out h r hr
    simp [preprocess_comments] at h
    subst h
    simp at hr
  | cons c cs ih =>
    intro out h r hr
    unfold preprocess_comments at h
    split at h
    · exact absurd h (by simp)
    · exact ih out h r hr
    case _ r0 hr0 =>
      rw [Option.map_eq_some'] at h
      obtain ⟨rest, hrest, hout⟩ := h
      subst hout
      rcases List.mem_cons.mp hr with h1 | h1
      · subst h1
        exact ⟨c, hr0⟩
      · exact ih rest hrest r h1

/-- A 520-character comment of alternating `a`/`b`: it passes both
validity gates, is untouched by every normalizer stage, is a single
token that an identity speller returns unchanged, and is classified
Normal — so it reaches the truncation step longer than
`MAX_COMMENT_LENGTH`. -/
def abText : String := String.mk (List.replicate 260 ['a', 'b']).flatten

set_option maxRecDepth 100000 in
/-- C1, counterexample: a surviving comment whose `text_clean` has
length 503 — the code first truncates to `MAX_COMMENT_LENGTH = 500`
characters and then appends the three-character marker `"..."`, so the
stored field exceeds the configured maximum. -/
theorem text_clean_exceeds_max :
    (preprocess_comments extId [⟨abText, "user"⟩]).map
        (·.map (fun r => r.text_clean.length)) = some [503] ∧
      MAX_COMMENT_LENGTH < 503 := by
  refine ⟨by decide, by decide⟩

/-- C1 (amended): for every surviving comment, `text_clean` is at most
`MAX_COMMENT_LENGTH + 3` characters: text longer than the maximum is
truncated to `MAX_COMMENT_LENGTH` characters and given the trailing
three-character marker `"..."`. -/
theorem text_clean_length_bound (ext : ExtCaps) (comments : List RawComment)
    (out : List ProcessedComment) (h : preprocess_comments ext comments = some out) :
    ∀ r ∈ out, r.text_clean.length ≤ MAX_COMMENT_LENGTH + 3 := by
  intro r hr
  obtain ⟨c, hc⟩ := preprocess_mem ext comments out h r hr
  exact (processOne_inv ext c r hc).1

/-- Witness for `text_clean_length_bound` at a concrete batch. -/
theorem text_clean_length_bound_witness :
    (⟨"hello world", "hello world", CommentType.normal, false⟩ :
        ProcessedComment).text_clean.length ≤ MAX_COMMENT_LENGTH + 3 :=
  text_clean_length_bound extId [⟨"hello world", "u"⟩]
    [⟨"hello world", "hello world", CommentType.normal, false⟩] (by decide)
    _ (List.mem_singleton.mpr rfl)

/-- C7: for every comment record output by `preprocess_comments`, the
flag `is_filtered` holds exactly when `comment_type` is not Normal; it
is computed from `comment_type` and never set independently. -/
theorem is_filtered_derived (ext : ExtCaps) (comments : List RawComment)
    (out : List ProcessedComment) (h : preprocess_comments ext comments = some out) :
    ∀ r ∈ out, (r.is_filtered = true ↔ r.comment_type ≠ CommentType.normal) := by
  intro r hr
  obtain ⟨c, hc⟩ := preprocess_mem ext comments out h r hr
  have h2 := (processOne_inv ext c r hc).2
  rw [h2]
  simp

/-- Witness for `is_filtered_derived` at a concrete batch. -/
theorem is_filtered_derived_witness :
    ((⟨"hello world", "hello world", CommentType.normal, false⟩ :
        ProcessedComment).is_filtered = true ↔
      (⟨"hello world", "hello world", CommentType.normal, false⟩ :
        ProcessedComment).comment_type ≠ CommentType.normal) :=
  is_filtered_derived extId [⟨"hello world", "u"⟩]
    [⟨"hello world", "hello world", CommentType.normal, false⟩] (by decide)
    _ (List.mem_singleton.mpr rfl)

/-! ### Spam detection totality (C2) and classification precedence (C8) -/

/-- C2: `detect_spam` is not total.  On the one-character text `" "` the
emoji-density guard `len(text) > 0` passes, but `" ".split()` is empty,
so the density check divides by zero and the Python call raises
`ZeroDivisionError` (modelled by `none`).  `emoji_count` of an ASCII
space is 0. -/
theorem detect_spam_divzero_on_whitespace :
    detect_spam (fun _ => 0) " " = none := by decide

/-- C8: `classify_comment` evaluates the spam check first with
short-circuiting: a comment matching both the spam and the troll rules
is labelled Spam, and a comment matching neither is labelled Normal. -/
theorem classify_spam_precedence (emojiCount : String → Nat)
    (text author : String) :
    (detect_spam emojiCount text = some true → detect_troll text = true →
      classify_comment emojiCount text author = some CommentType.spam) ∧
    (detect_spam emojiCount text = some false → detect_troll text = false →
      classify_comment emojiCount text author = some CommentType.normal) := by
  constructor
  · intro hs _
    simp [classify_comment, hs]
  · intro hs ht
    simp [classify_comment, hs, ht]

/-- Witness for `classify_spam_precedence`: `"ratio check out my"`
matches the spam keyword `"check out my"` and the troll indicator
prefix `"ratio"`, and is labelled Spam; `"hello there friend"` matches
neither rule set and is labelled Normal. -/
theorem classify_spam_precedence_witness :
    classify_comment (fun _ => 0) "ratio check out my" "" = some CommentType.spam ∧
      classify_comment (fun _ => 0) "hello there friend" "" = some CommentType.normal :=
  ⟨(classify_spam_precedence (fun _ => 0) "ratio check out my" "").1
      (by decide) (by decide),
    (classify_spam_precedence (fun _ => 0) "hello there friend" "").2
      (by decide) (by decide)⟩

/-! ### Sentiment threshold boundaries (C6) -/

/-- C6: with the negative threshold below the positive one, a compound
score exactly at the positive threshold classifies Positive, exactly at
the negative threshold classifies Negative, and strictly between the
two classifies Neutral. -/
theorem threshold_boundaries (posTh negTh : ℚ) (h : negTh < posTh) :
    classifyCompound posTh negTh posTh = SentimentType.positive ∧
      classifyCompound posTh negTh negTh = SentimentType.negative ∧
        ∀ c : ℚ, negTh < c → c < posTh →
          classifyCompound posTh negTh c = SentimentType.neutral := by
  refine ⟨?_, ?_, ?_⟩
  · simp [classifyCompound]
  · rw [classifyCompound, if_neg (by exact not_le.mpr h), if_pos le_rfl]
  · intro c h1 h2
    rw [classifyCompound, if_neg (by exact not_le.mpr h2),
      if_neg (by exact not_le.mpr h1)]

/-- Witness for `threshold_boundaries` at the configured thresholds
`+0.05` and `−0.3` of `Settings`. -/
theorem threshold_boundaries_witness :
    classifyCompound VADER_COMPOUND_THRESHOLD_POSITIVE
        VADER_COMPOUND_THRESHOLD_NEGATIVE VADER_COMPOUND_THRESHOLD_POSITIVE =
      SentimentType.positive ∧
      classifyCompound VADER_COMPOUND_THRESHOLD_POSITIVE
          VADER_COMPOUND_THRESHOLD_NEGATIVE VADER_COMPOUND_THRESHOLD_NEGATIVE =
        SentimentType.negative ∧
        ∀ c : ℚ, VADER_COMPOUND_THRESHOLD_NEGATIVE < c →
          c < VADER_COMPOUND_THRESHOLD_POSITIVE →
            classifyCompound VADER_COMPOUND_THRESHOLD_POSITIVE
              VADER_COMPOUND_THRESHOLD_NEGATIVE c = SentimentType.neutral :=
  threshold_boundaries VADER_COMPOUND_THRESHOLD_POSITIVE
    VADER_COMPOUND_THRESHOLD_NEGATIVE
    (by norm_num [VADER_COMPOUND_THRESHOLD_POSITIVE, VADER_COMPOUND_THRESHOLD_NEGATIVE])

/-! ### Sentiment-engine failure handling (C3) -/

deriving instance DecidableEq for Except

/-- C3, counterexample: `analyze_comments_vader` has no exception
handler — when the polarity engine raises on a comment with nonempty
text, the error propagates to the caller instead of the comment being
assigned Neutral/0.0. -/
theorem vader_error_not_recovered :
    analyze_comments_vader (fun _ => Except.error "engine down")
        [⟨"great video", false⟩] = Except.error "engine down" := by decide

/-- C3 (amended): an engine error on any comment with nonempty selected
text aborts the whole batch — the error propagates to the caller; only
a comment with empty text receives the local Neutral/0.0 fallback,
without the engine being invoked for it. -/
theorem vader_error_propagates :
    (∀ (score : String → Except String ℚ) (cs : List VComment),
      (∃ c ∈ cs, c.text_clean ≠ "" ∧ ∃ e, score c.text_clean = Except.error e) →
        ∃ e, analyze_comments_vader score cs = Except.error e) ∧
    (∀ (score : String → Except String ℚ) (c : VComment) (cs : List VComment),
      c.text_clean = "" →
        analyze_comments_vader score (c :: cs) =
          (analyze_comments_vader score cs).map (neutralize c :: ·)) := by
  constructor
  · intro score cs
    induction cs with
    | nil => simp
    | cons c cs ih =>
      intro hex
      obtain ⟨c0, hc0, hne, e, he⟩ := hex
      unfold analyze_comments_vader
      split
      · have hc0cs : c0 ∈ cs := by
          rcases List.mem_cons.mp hc0 with h1 | h1
          · subst h1; simp_all
          · exact h1
        obtain ⟨e2, he2⟩ := ih ⟨c0, hc0cs, hne, e, he⟩
        exact ⟨e2, by rw [he2]; rfl⟩
      · cases hs : score c.text_clean with
        | error e3 => exact ⟨e3, rfl⟩
        | ok q =>
          have hc0cs : c0 ∈ cs := by
            rcases List.mem_cons.mp hc0 with h1 | h1
            · subst h1; simp_all
            · exact h1
          obtain ⟨e2, he2⟩ := ih ⟨c0, hc0cs, hne, e, he⟩
          exact ⟨e2, by rw [he2]; rfl⟩
  · intro score c cs hc
    conv_lhs => unfold analyze_comments_vader
    rw [if_pos hc]

/-- Witness for `vader_error_propagates` at a concrete failing batch. -/
theorem vader_error_propagates_witness :
    ∃ e, analyze_comments_vader (fun _ => Except.error "boom")
        [⟨"nice", false⟩] = Except.error e :=
  vader_error_propagates.1 (fun _ => Except.error "boom") [⟨"nice", false⟩]
    ⟨⟨"nice", false⟩, by simp, by decide, "boom", rfl⟩

/-! ### Distribution percentages (C4) -/

theorem roundHalfEven_abs_le (x : ℚ) : |(roundHalfEven x : ℚ) - x| ≤ 1/2 := by
  have h0 : (0:ℚ) ≤ Int.fract x := Int.fract_nonneg x
  have h1 : Int.fract x < 1 := Int.fract_lt_one x
  have hfl : (⌊x⌋ : ℚ) = x - Int.fract x := by
    unfold Int.fract
    ring
  unfold roundHalfEven
  split_ifs with hlt hgt hev
  · rw [hfl, abs_le]
    constructor <;> linarith
  · push_cast
    rw [hfl, abs_le]
    constructor <;> linarith
  · have heq : Int.fract x = 1/2 := le_antisymm (not_lt.mp hgt) (not_lt.mp hlt)
    rw [hfl, heq, abs_le]
    constructor <;> linarith
  · have heq : Int.fract x = 1/2 := le_antisymm (not_lt.mp hgt) (not_lt.mp hlt)
    push_cast
    rw [hfl, heq, abs_le]
    constructor <;> linarith

theorem countP_sentiment_partition (l : List AnalyzedComment) :
    (l.countP fun c => decide (c.sentiment = SentimentType.positive)) +
      (l.countP fun c => decide (c.sentiment = SentimentType.negative)) +
        (l.countP fun c => decide (c.sentiment = SentimentType.neutral)) =
      l.length := by
  induction l with
  | nil => simp
  | cons c cs ih =>
    simp only [List.countP_cons, List.length_cons]
    cases hc : c.sentiment <;> simp [hc] <;> omega

/-- C4: the three rounded percentages of
`calculate_sentiment_distribution` sum to 100 within the rounding
tolerance 0.1 whenever there is at least one non-filtered comment, and
every field of the distribution is 0 when there is none. -/
theorem distribution_sums (comments : List AnalyzedComment) :
    ((comments.filter fun c => !c.is_filtered).length = 0 →
      calculate_sentiment_distribution comments = ⟨0, 0, 0, 0, 0, 0, 0⟩) ∧
    (0 < (comments.filter fun c => !c.is_filtered).length →
      |(calculate_sentiment_distribution comments).positive_percentage +
        (calculate_sentiment_distribution comments).negative_percentage +
          (calculate_sentiment_distribution comments).neutral_percentage - 100| ≤
        1/10) := by
  constructor
  · intro h
    have hnil : comments.filter (fun c => !c.is_filtered) = [] :=
      List.length_eq_zero.mp h
    unfold calculate_sentiment_distribution
    rw [hnil]
    rfl
  · intro h
    have hne : (comments.filter fun c => !c.is_filtered).isEmpty = false := by
      rcases hl : comments.filter fun c => !c.is_filtered with _ | ⟨a, t⟩
      · rw [hl] at h; simp at h
      · rw [hl]; rfl
    simp only [calculate_sentiment_distribution, hne, Bool.false_eq_true, if_false]
    set valid := comments.filter fun c => !c.is_filtered with hv
    set p := valid.countP fun c => decide (c.sentiment = SentimentType.positive) with hp
    set n := valid.countP fun c => decide (c.sentiment = SentimentType.negative) with hn
    set u := valid.countP fun c => decide (c.sentiment = SentimentType.neutral) with hu
    set T : ℚ := (valid.length : ℚ) with hT
    have hT0 : 0 < T := by
      rw [hT]
      exact_mod_cast h
    have hpnu : (p : ℚ) + n + u = T := by
      rw [hT]
      exact_mod_cast countP_sentiment_partition valid
    simp only [round1]
    set A := 10 * (((p : ℚ) / T) * 100) with hA
    set B := 10 * (((n : ℚ) / T) * 100) with hB
    set C := 10 * (((u : ℚ) / T) * 100) with hC
    have hsum1000 : A + B + C = 1000 := by
      rw [hA, hB, hC]
      field_simp
      linarith [hpnu]
    have hA1 := roundHalfEven_abs_le A
    have hB1 := roundHalfEven_abs_le B
    have hC1 := roundHalfEven_abs_le C
    set S : ℤ := roundHalfEven A + roundHalfEven B + roundHalfEven C with hS
    have hSsum : |(S : ℚ) - 1000| ≤ 3/2 := by
      have hrw : (S : ℚ) - 1000 =
          ((roundHalfEven A : ℚ) - A) + ((roundHalfEven B : ℚ) - B) +
            ((roundHalfEven C : ℚ) - C) := by
        rw [hS]
        push_cast
        linarith [hsum1000]
      rw [hrw]
      have t1 := abs_add (((roundHalfEven A : ℚ) - A) + ((roundHalfEven B : ℚ) - B))
        ((roundHalfEven C : ℚ) - C)
      have t2 := abs_add ((roundHalfEven A : ℚ) - A) ((roundHalfEven B : ℚ) - B)
      linarith
    have hZ : |S - 1000| ≤ 1 := by
      by_contra hcon
      push_neg at hcon
      have h2 : (2 : ℤ) ≤ |S - 1000| := by omega
      have h3 : (2 : ℚ) ≤ |(S : ℚ) - 1000| := by
        calc (2 : ℚ) = ((2 : ℤ) : ℚ) := by norm_num
          _ ≤ ((|S - 1000| : ℤ) : ℚ) := by exact_mod_cast h2
          _ = |((S - 1000 : ℤ) : ℚ)| := Int.cast_abs
          _ = |(S : ℚ) - 1000| := by push_cast; ring_nf
      linarith
    have hcast : |(S : ℚ) - 1000| ≤ 1 := by
      calc |(S : ℚ) - 1000| = |((S - 1000 : ℤ) : ℚ)| := by push_cast; ring_nf
        _ = ((|S - 1000| : ℤ) : ℚ) := Int.cast_abs.symm
        _ ≤ 1 := by exact_mod_cast hZ
    show |(roundHalfEven A : ℚ) / 10 + (roundHalfEven B : ℚ) / 10 +
      (roundHalfEven C : ℚ) / 10 - 100| ≤ 1/10
    rw [abs_le] at hcast ⊢
    obtain ⟨hc1, hc2⟩ := hcast
    have hSq : ((S : ℤ) : ℚ) = (roundHalfEven A : ℚ) + (roundHalfEven B : ℚ) +
        (roundHalfEven C : ℚ) := by
      rw [hS]
      push_cast
      ring
    rw [hSq] at hc1 hc2
    constructor <;> linarith

/-- Witness for `distribution_sums` at a one-comment batch. -/
theorem distribution_sums_witness :
    |(calculate_sentiment_distribution
        [⟨"a", false, SentimentType.positive, 1⟩]).positive_percentage +
      (calculate_sentiment_distribution
        [⟨"a", false, SentimentType.positive, 1⟩]).negative_percentage +
        (calculate_sentiment_distribution
          [⟨"a", false, SentimentType.positive, 1⟩]).neutral_percentage - 100| ≤
      1/10 :=
  (distribution_sums [⟨"a", false, SentimentType.positive, 1⟩]).2 (by decide)

/-! ### Stable sorting lemmas for `get_extreme_comments` (C9, C10) -/

theorem mem_insertRank {α : Type} (r : α → ℚ) (x a : α) :
    ∀ l, a ∈ insertRank r x l ↔ a = x ∨ a ∈ l := by
  intro l
  induction l with
  | nil => simp [insertRank]
  | cons y ys ih =>
    unfold insertRank
    split
    · simp
    · rw [List.mem_cons, ih, List.mem_cons]
      tauto

theorem mem_sortRank {α : Type} (r : α → ℚ) (a : α) :
    ∀ l, a ∈ sortRank r l ↔ a ∈ l := by
  intro l
  induction l with
  | nil => simp [sortRank]
  | cons x xs ih =>
    unfold sortRank
    rw [mem_insertRank, ih, List.mem_cons]

theorem length_insertRank {α : Type} (r : α → ℚ) (x : α) :
    ∀ l, (insertRank r x l).length = l.length + 1 := by
  intro l
  induction l with
  | nil => rfl
  | cons y ys ih =>
    unfold insertRank
    split
    · rfl
    · simp only [List.length_cons, ih]

theorem length_sortRank {α : Type} (r : α → ℚ) :
    ∀ l, (sortRank r l).length = l.length := by
  intro l
  induction l with
  | nil => rfl
  | cons x xs ih =>
    unfold sortRank
    rw [length_insertRank, ih, List.length_cons]

theorem pairwise_insertRank {α : Type} (r : α → ℚ) (x : α) :
    ∀ l, l.Pairwise (fun a b => r a ≤ r b) →
      (insertRank r x l).Pairwise (fun a b => r a ≤ r b) := by
  intro l
  induction l with
  | nil =>
    intro _
    simp [insertRank]
  | cons y ys ih =>
    intro h
    rw [List.pairwise_cons] at h
    obtain ⟨hy, hys⟩ := h
    unfold insertRank
    split
    case _ hxy =>
      rw [List.pairwise_cons]
      refine ⟨?_, List.pairwise_cons.mpr ⟨hy, hys⟩⟩
      intro z hz
      rcases List.mem_cons.mp hz with h1 | h1
      · subst h1; exact hxy
      · exact le_trans hxy (hy z h1)
    case _ hxy =>
      rw [List.pairwise_cons]
      refine ⟨?_, ih hys⟩
      intro z hz
      rcases (mem_insertRank r x z ys).mp hz with h1 | h1
      · subst h1
        exact le_of_lt (lt_of_not_le hxy)
      · exact hy z h1

theorem pairwise_sortRank {α : Type} (r : α → ℚ) :
    ∀ l, (sortRank r l).Pairwise (fun a b => r a ≤ r b) := by
  intro l
  induction l with
  | nil => simp [sortRank]
  | cons x xs ih => exact pairwise_insertRank r x _ ih

theorem filter_insertRank_pos {α : Type} (r : α → ℚ) (P : α → Bool) (x : α)
    (hPx : P x = true) (hkey : ∀ y, P y = true → r x ≤ r y) :
    ∀ l, (insertRank r x l).filter P = x :: l.filter P := by
  intro l
  induction l with
  | nil => simp [insertRank, hPx]
  | cons y ys ih =>
    unfold insertRank
    split
    case _ hxy => simp [List.filter_cons, hPx]
    case _ hxy =>
      cases hPy : P y with
      | true => exact absurd (hkey y hPy) hxy
      | false =>
        rw [List.filter_cons_of_neg (by simp [hPy]), ih,
          List.filter_cons_of_neg (by simp [hPy])]

theorem filter_insertRank_neg {α : Type} (r : α → ℚ) (P : α → Bool) (x : α)
    (hPx : P x = false) :
    ∀ l, (insertRank r x l).filter P = l.filter P := by
  intro l
  induction l with
  | nil => simp [insertRank, hPx]
  | cons y ys ih =>
    unfold insertRank
    split
    · rw [List.filter_cons_of_neg (by simp [hPx])]
    · rw [List.filter_cons, ih, List.filter_cons]

theorem filter_sortRank {α : Type} (r : α → ℚ) (P : α → Bool)
    (hkey : ∀ a b, P a = true → P b = true → r a = r b) :
    ∀ l, (sortRank r l).filter P = l.filter P := by
  intro l
  induction l with
  | nil => rfl
  | cons x xs ih =>
    unfold sortRank
    cases hPx : P x with
    | true =>
      rw [filter_insertRank_pos r P x hPx (fun y hy => (hkey x y hPx hy).le), ih,
        List.filter_cons_of_pos hPx]
    | false =>
      rw [filter_insertRank_neg r P x hPx, ih, List.filter_cons_of_neg (by simp [hPx])]

theorem filter_take_pre {β : Type} (P : β → Bool) (l : List β) (n : Nat) :
    ∃ k, (l.take n).filter P = (l.filter P).take k := by
  refine ⟨((l.take n).filter P).length, ?_⟩
  calc (l.take n).filter P
      = ((l.take n).filter P ++ (l.drop n).filter P).take
          ((l.take n).filter P).length := (List.take_left _ _).symm
    _ = ((l.take n ++ l.drop n).filter P).take ((l.take n).filter P).length := by
        rw [List.filter_append]
    _ = (l.filter P).take ((l.take n).filter P).length := by
        rw [List.take_append_drop]

/-- Shared properties of "sort by rank, then take `n`". -/
theorem extreme_core (r : AnalyzedComment → ℚ) (filtered : List AnalyzedComment)
    (n : Nat) :
    ((sortRank r filtered).take n).length ≤ n ∧
    (∀ c ∈ (sortRank r filtered).take n, c ∈ filtered) ∧
    ((sortRank r filtered).take n).Pairwise (fun a b => r a ≤ r b) ∧
    (∀ P : AnalyzedComment → Bool, (∀ a b, P a = true → P b = true → r a = r b) →
      ∃ k, ((sortRank r filtered).take n).filter P = (filtered.filter P).take k) := by
  refine ⟨?_, ?_, ?_, ?_⟩
  · rw [List.length_take]
    exact min_le_left n _
  · intro c hc
    exact (mem_sortRank r c filtered).mp (((sortRank r filtered).take_sublist n).mem hc)
  · exact (pairwise_sortRank r filtered).sublist ((sortRank r filtered).take_sublist n)
  · intro P hkey
    obtain ⟨k, hk⟩ := filter_take_pre P (sortRank r filtered) n
    exact ⟨k, by rw [hk, filter_sortRank r P hkey filtered]⟩

/-- C9: `get_extreme_comments` returns at most `n` comments, all with
the requested sentiment and `is_filtered = false`; for Positive the
result is sorted by descending score, for Negative by ascending score,
and the comments of any fixed score value appear as a prefix of their
input-order sequence (exact ties keep the stable input order). -/
theorem get_extreme_spec (comments : List AnalyzedComment) (s : SentimentType)
    (n : Nat) :
    (get_extreme_comments comments s n).length ≤ n ∧
    (∀ c ∈ get_extreme_comments comments s n,
      c.sentiment = s ∧ c.is_filtered = false) ∧
    (s = SentimentType.positive → (get_extreme_comments comments s n).Pairwise
      (fun a b => b.sentiment_score ≤ a.sentiment_score)) ∧
    (s = SentimentType.negative → (get_extreme_comments comments s n).Pairwise
      (fun a b => a.sentiment_score ≤ b.sentiment_score)) ∧
    (∀ v : ℚ, ∃ k,
      (get_extreme_comments comments s n).filter
          (fun c => decide (c.sentiment_score = v)) =
        ((comments.filter fun c => decide (c.sentiment = s) && !c.is_filtered).filter
          (fun c => decide (c.sentiment_score = v))).take k) := by
  have hmemf : ∀ c ∈ comments.filter
      (fun c => decide (c.sentiment = s) && !c.is_filtered),
      c.sentiment = s ∧ c.is_filtered = false := by
    intro c hc
    have := (List.mem_filter.mp hc).2
    constructor
    · simp at this
      exact this.1
    · simp at this
      exact this.2
  cases s with
  | positive =>
    obtain ⟨h1, h2, h3, h4⟩ := extreme_core
      (fun c : AnalyzedComment => -c.sentiment_score)
      (comments.filter fun c =>
        decide (c.sentiment = SentimentType.positive) && !c.is_filtered) n
    refine ⟨h1, fun c hc => hmemf c (h2 c hc), fun _ => ?_, by simp, fun v => ?_⟩
    · exact h3.imp (by intro a b hab; simpa using hab)
    · exact h4 _ (by
        intro a b ha hb
        simp only [decide_eq_true_eq] at ha hb
        simp [ha, hb])
  | negative =>
    obtain ⟨h1, h2, h3, h4⟩ := extreme_core
      (fun c : AnalyzedComment => c.sentiment_score)
      (comments.filter fun c =>
        decide (c.sentiment = SentimentType.negative) && !c.is_filtered) n
    refine ⟨h1, fun c hc => hmemf c (h2 c hc), by simp, fun _ => h3, fun v => ?_⟩
    exact h4 _ (by
      intro a b ha hb
      simp only [decide_eq_true_eq] at ha hb
      simp [ha, hb])
  | neutral =>
    obtain ⟨h1, h2, h3, h4⟩ := extreme_core
      (fun c : AnalyzedComment => |c.sentiment_score|)
      (comments.filter fun c =>
        decide (c.sentiment = SentimentType.neutral) && !c.is_filtered) n
    refine ⟨h1, fun c hc => hmemf c (h2 c hc), by simp, by simp, fun v => ?_⟩
    exact h4 _ (by
      intro a b ha hb
      simp only [decide_eq_true_eq] at ha hb
      simp [ha, hb])

/-- Witness for `get_extreme_spec`: the descending and ascending order
conjuncts instantiated at concrete batches. -/
theorem get_extreme_spec_witness :
    (get_extreme_comments
        [⟨"a", false, SentimentType.positive, 1⟩,
         ⟨"b", false, SentimentType.positive, 2⟩]
        SentimentType.positive 2).Pairwise
      (fun a b => b.sentiment_score ≤ a.sentiment_score) ∧
    (get_extreme_comments [⟨"c", false, SentimentType.negative, -1⟩]
        SentimentType.negative 1).Pairwise
      (fun a b => a.sentiment_score ≤ b.sentiment_score) :=
  ⟨(get_extreme_spec
      [⟨"a", false, SentimentType.positive, 1⟩,
       ⟨"b", false, SentimentType.positive, 2⟩]
      SentimentType.positive 2).2.2.1 rfl,
   (get_extreme_spec [⟨"c", false, SentimentType.negative, -1⟩]
      SentimentType.negative 1).2.2.2.1 rfl⟩

theorem perm_insertRank {α : Type} (r : α → ℚ) (x : α) :
    ∀ l, List.Perm (insertRank r x l) (x :: l) := by
  intro l
  induction l with
  | nil => exact List.Perm.refl _
  | cons y ys ih =>
    unfold insertRank
    split
    · exact List.Perm.refl _
    · exact (ih.cons y).trans (List.Perm.swap x y ys)

theorem perm_sortRank {α : Type} (r : α → ℚ) :
    ∀ l, List.Perm (sortRank r l) l := by
  intro l
  induction l with
  | nil => exact List.Perm.refl _
  | cons x xs ih =>
    unfold sortRank
    exact (perm_insertRank r x (sortRank r xs)).trans (ih.cons x)

theorem take_sortRank_subperm {α : Type} (r : α → ℚ) (l : List α) (n : Nat) :
    ((sortRank r l).take n).Subperm l :=
  (((sortRank r l).take_sublist n).subperm).trans (perm_sortRank r l).subperm

/-- Cutoff minimality of "sort ascending by rank, then take `n`": every
sorted element that the truncation drops has rank at least that of
every element it keeps. -/
theorem sortRank_take_cutoff {α : Type} (r : α → ℚ) (l : List α) (n : Nat) :
    ∀ c ∈ sortRank r l, c ∉ (sortRank r l).take n →
      ∀ d ∈ (sortRank r l).take n, r d ≤ r c := by
  intro c hc hcn d hd
  have hp := pairwise_sortRank r l
  rw [← List.take_append_drop n (sortRank r l), List.pairwise_append] at hp
  rw [← List.take_append_drop n (sortRank r l), List.mem_append] at hc
  rcases hc with h | h
  · exact absurd h hcn
  · exact hp.2.2 d hd c h

/-- C10: when called with the Neutral sentiment (a case the spec leaves
undefined), `get_extreme_comments` returns exactly the non-filtered
Neutral comments ordered by ascending absolute compound score (closest
to zero first) and truncated to `n`: the result has length
`min n (number of qualifying comments)`, is a subpermutation of the
qualifying comments, is sorted by ascending absolute score, every
qualifying comment it leaves out is at least as far from zero as every
comment it returns, and when at most `n` comments qualify all of them
are returned. -/
theorem get_extreme_neutral_spec (comments : List AnalyzedComment) (n : Nat) :
    (get_extreme_comments comments SentimentType.neutral n).length =
      min n (comments.filter fun c =>
        decide (c.sentiment = SentimentType.neutral) && !c.is_filtered).length ∧
    (∀ c ∈ get_extreme_comments comments SentimentType.neutral n,
      c.sentiment = SentimentType.neutral ∧ c.is_filtered = false) ∧
    (get_extreme_comments comments SentimentType.neutral n).Pairwise
      (fun a b => |a.sentiment_score| ≤ |b.sentiment_score|) ∧
    (get_extreme_comments comments SentimentType.neutral n).Subperm
      (comments.filter fun c =>
        decide (c.sentiment = SentimentType.neutral) && !c.is_filtered) ∧
    (∀ c ∈ comments.filter fun c =>
        decide (c.sentiment = SentimentType.neutral) && !c.is_filtered,
      c ∉ get_extreme_comments comments SentimentType.neutral n →
        ∀ d ∈ get_extreme_comments comments SentimentType.neutral n,
          |d.sentiment_score| ≤ |c.sentiment_score|) ∧
    ((comments.filter fun c =>
        decide (c.sentiment = SentimentType.neutral) && !c.is_filtered).length ≤ n →
      ∀ c ∈ comments.filter fun c =>
        decide (c.sentiment = SentimentType.neutral) && !c.is_filtered,
        c ∈ get_extreme_comments comments SentimentType.neutral n) := by
  obtain ⟨_, h2, h3, _⟩ := extreme_core
    (fun c : AnalyzedComment => |c.sentiment_score|)
    (comments.filter fun c =>
      decide (c.sentiment = SentimentType.neutral) && !c.is_filtered) n
  refine ⟨?_, ?_, h3, ?_, ?_, ?_⟩
  · show ((sortRank _ _).take n).length = _
    rw [List.length_take, length_sortRank]
  · intro c hc
    have hmem := h2 c hc
    have := (List.mem_filter.mp hmem).2
    simp at this
    exact ⟨this.1, this.2⟩
  · exact take_sortRank_subperm _ _ n
  · intro c hc hcn d hd
    exact sortRank_take_cutoff _ _ n c ((mem_sortRank _ c _).mpr hc) hcn d hd
  · intro hlen c hc
    show c ∈ (sortRank _ _).take n
    rw [List.take_of_length_le (by rw [length_sortRank]; exact hlen)]
    exact (mem_sortRank _ c _).mpr hc

/-- Witness for `get_extreme_neutral_spec`: completeness instantiated
at a one-comment batch, and cutoff minimality instantiated at a batch
where two Neutral comments qualify but only one is returned — the
excluded comment (score 2) is farther from zero than everything
returned. -/
theorem get_extreme_neutral_spec_witness :
    (∀ c ∈ [⟨"a", false, SentimentType.neutral, 0⟩].filter
      (fun c : AnalyzedComment =>
        decide (c.sentiment = SentimentType.neutral) && !c.is_filtered),
      c ∈ get_extreme_comments [⟨"a", false, SentimentType.neutral, 0⟩]
        SentimentType.neutral 3) ∧
    (∀ d ∈ get_extreme_comments
        [⟨"a", false, SentimentType.neutral, 0⟩,
         ⟨"b", false, SentimentType.neutral, 2⟩] SentimentType.neutral 1,
      |d.sentiment_score| ≤
        |(⟨"b", false, SentimentType.neutral, 2⟩ :
          AnalyzedComment).sentiment_score|) :=
  ⟨(get_extreme_neutral_spec [⟨"a", false, SentimentType.neutral, 0⟩]
      3).2.2.2.2.2 (by decide),
   (get_extreme_neutral_spec
      [⟨"a", false, SentimentType.neutral, 0⟩,
       ⟨"b", false, SentimentType.neutral, 2⟩] 1).2.2.2.2.1
      ⟨"b", false, SentimentType.neutral, 2⟩ (by decide) (by decide)⟩
